import Mathlib

/-!
Verification of the dependency-graph construction core of a package
dependency visualiser (src/main.py).

The program builds, from a start package and a maximum depth, the
transitive dependency graph of a package using an iterative explicit
stack, a global visited set, and a per-branch ancestor path used for
cycle detection; it can also invert the graph to answer reverse
dependency queries.

The embedding below mirrors build_dependency_graph, fetch_package_local,
get_dependencies, invert_graph and print_reverse_deps.  A metadata
source is modelled as a function from a package name and version to
either a list of dependency pairs (the value of the dependencies field
of the fetched record, in source order, empty when the field is absent)
or a failure: this composes fetch_package_remote / fetch_package_local
with get_dependencies, whose only effect on a well-formed record is to
extract that field with an empty default.  A separate model closer to
raw JSON is used for the remote-mode error-shape analysis.
-/

namespace DepViz

/-- Canonical key of a node identity, as produced by the node_key helper
inside build_dependency_graph: the f-string name at-sign version. -/
def nodeKey (name version : String) : String :=
  name ++ "@" ++ version

/-- Association-list lookup by key, first match wins; models a Python
dict lookup on a dict represented as its insertion-ordered item list. -/
def alookup {β : Type} : List (String × β) → String → Option β
  | [], _ => none
  | kv :: rest, k => if kv.1 = k then some kv.2 else alookup rest k

/-- Python dict assignment d[k] = v on a dict represented as its
insertion-ordered item list: an existing key keeps its position and gets
the new value, a new key is appended at the end. -/
def dictSet {β : Type} (g : List (String × β)) (k : String) (v : β) : List (String × β) :=
  if k ∈ g.map Prod.fst then
    g.map (fun kv => if kv.1 = k then (kv.1, v) else kv)
  else
    g ++ [(k, v)]

/-- Python inv.setdefault(k, []).append(p): append p to the list stored
at k, creating the entry at the end of the dict when k is absent. -/
def dictAppend (g : List (String × List String)) (k : String) (p : String) :
    List (String × List String) :=
  if k ∈ g.map Prod.fst then
    g.map (fun kv => if kv.1 = k then (kv.1, kv.2 ++ [p]) else kv)
  else
    g ++ [(k, [p])]

/-- One work-stack frame of build_dependency_graph: the tuple
(name, version, depth, path) pushed on the stack. -/
structure Frame where
  name : String
  version : String
  depth : Nat
  path : List String
deriving DecidableEq, Repr

/-- Diagnostic messages printed to stderr by build_dependency_graph: a
skipped-package message for a failed fetch (line 102) or a
cycle-detected message carrying path plus the repeated name (line 113). -/
inductive Warning where
  | skip : String → Warning
  | cycle : List String → Warning
deriving DecidableEq, Repr

/-- State of the traversal loop of build_dependency_graph.  The fields
stack, visited and graph are the program's variables; warnings records
the stderr diagnostics in emission order; fetchLog records every actual
fetch call with its argument pair and result, and popLog the canonical
key of every frame popped from the stack, both in order, as observation
fields for the stated properties. -/
structure BuildState where
  stack : List Frame
  visited : List String
  graph : List (String × List (String × String))
  warnings : List Warning
  fetchLog : List (String × String × Option (List (String × String)))
  popLog : List String
deriving Repr

/-- A metadata source: none models a fetch that raises RuntimeError,
some deps a successful fetch whose record has the dependency pairs deps
in source order (get_dependencies applied to the fetched record). -/
def Fetch : Type :=
  String → String → Option (List (String × String))

/-- Body of one iteration of the while loop of build_dependency_graph
(lines 90 to 115) for the popped frame fr and remaining stack rest:
discard the frame when already visited, otherwise mark it visited,
fetch, on failure warn and skip, on success record the graph entry, and
when depth is below max_depth push the non-cyclic dependencies (each
cyclic one produces a warning instead).  Pushed frames are reversed
because the Python stack pops from the end of its list while here the
head of the list is the top of the stack. -/
def stepFrame (fetch : Fetch) (maxDepth : Nat) (fr : Frame) (rest : List Frame)
    (st : BuildState) : BuildState :=
  let key := nodeKey fr.name fr.version
  let popLog := st.popLog ++ [key]
  if key ∈ st.visited then
    { st with stack := rest, popLog := popLog }
  else
    let visited := key :: st.visited
    match fetch fr.name fr.version with
    | none =>
      { stack := rest, visited := visited, graph := st.graph,
        warnings := st.warnings ++ [Warning.skip key],
        fetchLog := st.fetchLog ++ [(fr.name, fr.version, none)],
        popLog := popLog }
    | some deps =>
      let graph := dictSet st.graph key deps
      let fetchLog := st.fetchLog ++ [(fr.name, fr.version, some deps)]
      if maxDepth ≤ fr.depth then
        { stack := rest, visited := visited, graph := graph,
          warnings := st.warnings, fetchLog := fetchLog, popLog := popLog }
      else
        let cycWarns := (deps.filter (fun d => decide (d.1 ∈ fr.path))).map
          (fun d => Warning.cycle (fr.path ++ [d.1]))
        let pushes := (deps.filter (fun d => decide (d.1 ∉ fr.path))).map
          (fun d => Frame.mk d.1 d.2 (fr.depth + 1) (fr.path ++ [d.1]))
        { stack := pushes.reverse ++ rest, visited := visited, graph := graph,
          warnings := st.warnings ++ cycWarns, fetchLog := fetchLog, popLog := popLog }

/-- One iteration of the while loop (line 88): a no-op on an empty
stack, otherwise the loop body applied to the popped top frame. -/
def runStep (fetch : Fetch) (maxDepth : Nat) (st : BuildState) : BuildState :=
  match st.stack with
  | [] => st
  | fr :: rest => stepFrame fetch maxDepth fr rest st

/-- The while loop of build_dependency_graph, fuelled: run runStep while
the stack is non-empty and fuel remains. -/
def runLoop (fetch : Fetch) (maxDepth : Nat) : Nat → BuildState → BuildState
  | 0, st => st
  | Nat.succ fuel, st =>
    match st.stack with
    | [] => st
    | _ :: _ => runLoop fetch maxDepth fuel (runStep fetch maxDepth st)

/-- Weight of a single potential frame: an upper bound on the number of
loop iterations its subtree can cause, computed by descending lvl levels
through the declared dependencies. -/
def frameWeight (fetch : Fetch) (lvl : Nat) (name version : String) : Nat :=
  Nat.rec (motive := fun _ => String → String → Nat)
    (fun _ _ => 1)
    (fun _ ih n v =>
      match fetch n v with
      | none => 1
      | some deps => 1 + (deps.map (fun d => ih d.1 d.2)).sum)
    lvl name version

/-- Remaining expansion levels of a frame: frames at depth max_depth are
fetched but never expanded, so one level remains for them. -/
def frameLvl (maxDepth : Nat) (fr : Frame) : Nat :=
  maxDepth + 1 - fr.depth

/-- Total weight of a work stack: sum of the weights of its frames. -/
def stackWeight (fetch : Fetch) (maxDepth : Nat) (stack : List Frame) : Nat :=
  (stack.map (fun fr => frameWeight fetch (frameLvl maxDepth fr) fr.name fr.version)).sum

/-- Initial loop state of build_dependency_graph (lines 81 to 83): one
frame for the start package at depth 0 whose path already contains the
start package's name. -/
def initState (name version : String) : BuildState :=
  { stack := [Frame.mk name version 0 [name]], visited := [], graph := [],
    warnings := [], fetchLog := [], popLog := [] }

/-- Fuel sufficient to drain the initial stack (proved below). -/
def totalFuel (fetch : Fetch) (name version : String) (maxDepth : Nat) : Nat :=
  stackWeight fetch maxDepth (initState name version).stack

/-- Full final state of build_dependency_graph for a given source, start
package and maximum depth. -/
def buildFull (fetch : Fetch) (name version : String) (maxDepth : Nat) : BuildState :=
  runLoop fetch maxDepth (totalFuel fetch name version maxDepth) (initState name version)

/-- The returned value of build_dependency_graph: the accumulated graph,
a dict from canonical key to the node's dependency pairs. -/
def build_dependency_graph (fetch : Fetch) (name version : String) (maxDepth : Nat) :
    List (String × List (String × String)) :=
  (buildFull fetch name version maxDepth).graph

/-- The local metadata source, fetch_package_local composed with
get_dependencies: repo is none when the snapshot file is missing or
unparsable (every call then raises RuntimeError), otherwise the parsed
snapshot as a mapping from canonical key to the record's dependency
pairs; a key absent from the snapshot raises RuntimeError (none). -/
def fetch_package_local (repo : Option (List (String × List (String × String))))
    (name version : String) : Option (List (String × String)) :=
  match repo with
  | none => none
  | some repoData => alookup repoData (nodeKey name version)

/-- The graph inversion of invert_graph (lines 134 to 140): for every
package entry and every dependency pair in it, append the package key to
the inverted entry of the dependency's canonical key. -/
def invert_graph (graph : List (String × List (String × String))) :
    List (String × List String) :=
  graph.foldl
    (fun inv pd => pd.2.foldl (fun i d => dictAppend i (nodeKey d.1 d.2) pd.1) inv)
    []

/-- Reverse-depender query of print_reverse_deps: the list stored for
target in the inverted graph, and the empty list when the target is
absent (the program prints a not-found message, not an error). -/
def reverseDependersOf (inv : List (String × List String)) (target : String) :
    List String :=
  match alookup inv target with
  | some l => l
  | none => []

/-- Property that every recorded dependency list of a graph has pairwise
distinct dependency names. -/
def depNamesNodup (g : List (String × List (String × String))) : Prop :=
  ∀ p ∈ g, (p.2.map Prod.fst).Nodup

/-!
Remote-mode model at the JSON level, used for the response-shape
analysis: here a successful fetch returns the parsed JSON body as a
value, and get_dependencies is modelled on that value, including the
AttributeError that Python raises when the body, or its dependencies
field, is not an object. -/

/-- Parsed JSON values as returned by json.load. -/
inductive Json where
  | obj : List (String × Json) → Json
  | arr : List Json → Json
  | str : String → Json
  | num : Int → Json
  | bool : Bool → Json
  | null : Json

/-- Python exceptions other than RuntimeError that can escape the loop
body of build_dependency_graph. -/
inductive PyExn where
  | attributeError
deriving DecidableEq

/-- Python str() of a version value as interpolated by the f-strings of
the program.  Registry dependency versions are JSON strings, and every
statement proved below only ever renders strings; the rendering of the
remaining value forms is abbreviated and no statement depends on it. -/
def pyStr : Json → String
  | Json.str s => s
  | Json.num n => toString n
  | Json.bool b => if b then "True" else "False"
  | Json.null => "None"
  | Json.obj _ => "object"
  | Json.arr _ => "array"

/-- Canonical key in the JSON-level model: the f-string renders the
stored version value. -/
def nodeKeyJ (name : String) (version : Json) : String :=
  name ++ "@" ++ pyStr version

/-- get_dependencies (lines 70 to 71) together with the items()
iteration of its result (lines 106 and 111), at the JSON level:
pkg_data.get returns the dependencies field or an empty dict default,
but raises AttributeError when pkg_data is not a dict; iterating the
result raises AttributeError when that field is not a dict. -/
def get_dependencies (pkgData : Json) : Except PyExn (List (String × Json)) :=
  match pkgData with
  | Json.obj fields =>
    match alookup fields "dependencies" with
    | none => Except.ok []
    | some (Json.obj deps) => Except.ok deps
    | some _ => Except.error PyExn.attributeError
  | _ => Except.error PyExn.attributeError

/-- Work-stack frame of the JSON-level model: the version is carried as
the raw JSON value found in the parent's dependencies field. -/
structure FrameR where
  name : String
  version : Json
  depth : Nat
  path : List String

/-- Loop state of the JSON-level model. -/
structure BuildStateR where
  stack : List FrameR
  visited : List String
  graph : List (String × List (String × Json))
  warnings : List Warning

/-- A remote metadata source: fetch_package_remote either raises
RuntimeError (error, covering transport, HTTP, JSON-decode and unknown
failures, all re-raised as RuntimeError) or returns the parsed JSON
body, whatever its shape. -/
def FetchR : Type :=
  String → Json → Except Unit Json

/-- One iteration of the while loop in remote mode at the JSON level.
Only RuntimeError is caught by the loop (line 101); an AttributeError
raised by get_dependencies or by iterating its result escapes the whole
call, which the result type threads as an error. -/
def runStepR (fetch : FetchR) (maxDepth : Nat) (st : BuildStateR) :
    Except PyExn BuildStateR :=
  match st.stack with
  | [] => Except.ok st
  | fr :: rest =>
    let key := nodeKeyJ fr.name fr.version
    if key ∈ st.visited then
      Except.ok { st with stack := rest }
    else
      let visited := key :: st.visited
      match fetch fr.name fr.version with
      | Except.error _ =>
        Except.ok { stack := rest, visited := visited, graph := st.graph,
                    warnings := st.warnings ++ [Warning.skip key] }
      | Except.ok pkgData =>
        match get_dependencies pkgData with
        | Except.error e => Except.error e
        | Except.ok deps =>
          let graph := dictSet st.graph key deps
          if maxDepth ≤ fr.depth then
            Except.ok { stack := rest, visited := visited, graph := graph,
                        warnings := st.warnings }
          else
            let cycWarns := (deps.filter (fun d => decide (d.1 ∈ fr.path))).map
              (fun d => Warning.cycle (fr.path ++ [d.1]))
            let pushes := (deps.filter (fun d => decide (d.1 ∉ fr.path))).map
              (fun d => FrameR.mk d.1 d.2 (fr.depth + 1) (fr.path ++ [d.1]))
            Except.ok { stack := pushes.reverse ++ rest, visited := visited,
                        graph := graph, warnings := st.warnings ++ cycWarns }

/-- The fuelled while loop of the JSON-level model; an uncaught
exception aborts the loop and is propagated. -/
def runLoopR (fetch : FetchR) (maxDepth : Nat) : Nat → BuildStateR → Except PyExn BuildStateR
  | 0, st => Except.ok st
  | Nat.succ fuel, st =>
    match st.stack with
    | [] => Except.ok st
    | _ :: _ =>
      match runStepR fetch maxDepth st with
      | Except.error e => Except.error e
      | Except.ok st2 => runLoopR fetch maxDepth fuel st2

/-- Initial loop state of the JSON-level model: the start version comes
from the configuration as a string. -/
def initStateR (name version : String) : BuildStateR :=
  { stack := [FrameR.mk name (Json.str version) 0 [name]], visited := [],
    graph := [], warnings := [] }

/-- Remote-mode build_dependency_graph at the JSON level: either the
accumulated graph, or the uncaught Python exception that aborted the
call.  The fuel bounds the number of loop iterations. -/
def build_dependency_graph_remote (fetch : FetchR) (name version : String)
    (maxDepth fuel : Nat) : Except PyExn (List (String × List (String × Json))) :=
  match runLoopR fetch maxDepth fuel (initStateR name version) with
  | Except.error e => Except.error e
  | Except.ok st => Except.ok st.graph

/-!
Concrete inputs used in the stated scenarios. -/

/-- Snapshot of testable-properties scenario 1 of the program's
documentation: A depends on B and C, B on D, C on nothing, D on A. -/
def sampleSnapshot : List (String × List (String × String)) :=
  [("A@1.0", [("B", "1.0"), ("C", "1.0")]),
   ("B@1.0", [("D", "1.0")]),
   ("C@1.0", []),
   ("D@1.0", [("A", "1.0")])]

/-- Local metadata source backed by the scenario 1 snapshot. -/
def sampleFetch : Fetch :=
  fetch_package_local (some sampleSnapshot)

/-- A source whose start package A at version 1.0 declares a dependency
on its own name at another version; every other fetch fails. -/
def selfDepFetch : Fetch :=
  fun name version =>
    if name = "A" ∧ version = "1.0" then some [("A", "2.0")] else none

/-- A loop state about to pop package D of scenario 1 at the depth
limit, as the traversal reaches it with max_depth 2. -/
def probeState : BuildState :=
  { stack := [Frame.mk "D" "1.0" 2 ["A", "B", "D"]], visited := [], graph := [],
    warnings := [], fetchLog := [], popLog := [] }

/-!
Basic lemmas about association-list lookup and the dict operations. -/

theorem alookup_mem {β : Type} {l : List (String × β)} {k : String} {v : β}
    (h : alookup l k = some v) : (k, v) ∈ l := by
  induction l with
  | nil => simp [alookup] at h
  | cons kv rest ih =>
    by_cases hk : kv.1 = k
    · rw [alookup, if_pos hk] at h
      obtain ⟨a, b⟩ := kv
      cases hk
      cases Option.some.inj h
      exact List.mem_cons_self _ _
    · rw [alookup, if_neg hk] at h
      exact List.mem_cons_of_mem _ (ih h)

theorem alookup_some_mem_keys {β : Type} {l : List (String × β)} {k : String} {v : β}
    (h : alookup l k = some v) : k ∈ l.map Prod.fst :=
  List.mem_map.2 ⟨(k, v), alookup_mem h, rfl⟩

theorem alookup_isSome_of_mem_keys {β : Type} {l : List (String × β)} {k : String}
    (h : k ∈ l.map Prod.fst) : (alookup l k).isSome := by
  induction l with
  | nil => simp at h
  | cons kv rest ih =>
    by_cases hk : kv.1 = k
    · rw [alookup, if_pos hk]
      rfl
    · rw [alookup, if_neg hk]
      apply ih
      rcases List.mem_map.1 h with ⟨p, hp, hpk⟩
      rcases List.mem_cons.1 hp with h1 | h1
      · exact absurd (h1 ▸ hpk) hk
      · exact List.mem_map.2 ⟨p, h1, hpk⟩

theorem alookup_append_some {β : Type} {l1 : List (String × β)} (l2 : List (String × β))
    {k : String} {v : β} (h : alookup l1 k = some v) : alookup (l1 ++ l2) k = some v := by
  induction l1 with
  | nil => simp [alookup] at h
  | cons kv rest ih =>
    by_cases hk : kv.1 = k
    · rw [alookup, if_pos hk] at h
      rw [List.cons_append, alookup, if_pos hk]
      exact h
    · rw [alookup, if_neg hk] at h
      rw [List.cons_append, alookup, if_neg hk]
      exact ih h

theorem alookup_append_none {β : Type} {l1 : List (String × β)} (l2 : List (String × β))
    {k : String} (h : alookup l1 k = none) : alookup (l1 ++ l2) k = alookup l2 k := by
  induction l1 with
  | nil => simp
  | cons kv rest ih =>
    by_cases hk : kv.1 = k
    · rw [alookup, if_pos hk] at h
      exact absurd h (by simp)
    · rw [alookup, if_neg hk] at h
      rw [List.cons_append, alookup, if_neg hk]
      exact ih h

theorem dictSet_keys {β : Type} (g : List (String × β)) (key : String) (v : β) (k : String) :
    k ∈ (dictSet g key v).map Prod.fst ↔ k ∈ g.map Prod.fst ∨ k = key := by
  unfold dictSet
  by_cases hc : key ∈ g.map Prod.fst
  · rw [if_pos hc]
    have hkeys : (g.map (fun kv => if kv.1 = key then (kv.1, v) else kv)).map Prod.fst
        = g.map Prod.fst := by
      rw [List.map_map]
      apply List.map_congr_left
      intro kv _
      by_cases h1 : kv.1 = key <;> simp [h1]
    rw [hkeys]
    constructor
    · exact Or.inl
    · rintro (h | rfl)
      · exact h
      · exact hc
  · rw [if_neg hc]
    simp

theorem dictSet_mem {β : Type} {g : List (String × β)} {key : String} {v : β}
    {p : String × β} (h : p ∈ dictSet g key v) : p ∈ g ∨ p = (key, v) := by
  unfold dictSet at h
  by_cases hc : key ∈ g.map Prod.fst
  · rw [if_pos hc] at h
    rcases List.mem_map.1 h with ⟨kv, hkv, heq⟩
    by_cases h1 : kv.1 = key
    · right
      rw [← heq]
      simp [h1]
    · left
      rw [← heq]
      simp only [if_neg h1]
      exact hkv
  · rw [if_neg hc] at h
    rcases List.mem_append.1 h with h1 | h1
    · exact Or.inl h1
    · exact Or.inr (List.mem_singleton.1 h1)

theorem alookup_bump {inv : List (String × List String)} {k q X : String} :
    alookup (inv.map (fun kv => if kv.1 = k then (kv.1, kv.2 ++ [q]) else kv)) X
      = (alookup inv X).map (fun l => if k = X then l ++ [q] else l) := by
  induction inv with
  | nil => simp [alookup]
  | cons kv rest ih =>
    simp only [List.map_cons]
    by_cases hk : kv.1 = k
    · by_cases hX : kv.1 = X
      · have hkX : k = X := hk.symm.trans hX
        simp [alookup, hk, hX, hkX]
      · have hkX : ¬ k = X := fun h => hX (hk.trans h)
        simp [alookup, hk, hX, hkX, ih]
    · by_cases hX : kv.1 = X
      · have hkX : ¬ k = X := fun h => hk (hX.trans h.symm)
        have hXk : ¬ X = k := fun h => hkX h.symm
        simp [alookup, hk, hX, hkX, hXk]
      · simp [alookup, hk, hX, ih]

theorem rdo_dictAppend (inv : List (String × List String)) (k q X : String) :
    reverseDependersOf (dictAppend inv k q) X
      = reverseDependersOf inv X ++ (if k = X then [q] else []) := by
  unfold dictAppend reverseDependersOf
  by_cases hc : k ∈ inv.map Prod.fst
  · rw [if_pos hc, alookup_bump]
    cases h : alookup inv X with
    | some l => by_cases hkX : k = X <;> simp [hkX]
    | none =>
      have hkX : ¬ k = X := by
        intro he
        have := alookup_isSome_of_mem_keys (he ▸ hc)
        rw [h] at this
        exact absurd this (by simp)
      simp [hkX]
  · rw [if_neg hc]
    cases h : alookup inv X with
    | some l =>
      rw [alookup_append_some _ h]
      have hkX : ¬ k = X := by
        intro he
        exact hc (he ▸ alookup_some_mem_keys h)
      simp [hkX]
    | none =>
      rw [alookup_append_none _ h]
      by_cases hkX : k = X <;> simp [alookup, hkX]

/-!
Lemmas about frame weights and the fuelled loop, leading to the
termination theorem for the traversal. -/

theorem frameWeight_zero (fetch : Fetch) (n v : String) : frameWeight fetch 0 n v = 1 :=
  rfl

theorem frameWeight_succ (fetch : Fetch) (lvl : Nat) (n v : String) :
    frameWeight fetch (lvl + 1) n v =
      match fetch n v with
      | none => 1
      | some deps => 1 + (deps.map (fun d => frameWeight fetch lvl d.1 d.2)).sum :=
  rfl

theorem frameWeight_pos (fetch : Fetch) (lvl : Nat) (n v : String) :
    1 ≤ frameWeight fetch lvl n v := by
  cases lvl with
  | zero => simp [frameWeight_zero]
  | succ l =>
    rw [frameWeight_succ]
    cases fetch n v <;> simp

theorem stackWeight_nil (fetch : Fetch) (m : Nat) : stackWeight fetch m [] = 0 :=
  rfl

theorem stackWeight_cons (fetch : Fetch) (m : Nat) (fr : Frame) (s : List Frame) :
    stackWeight fetch m (fr :: s)
      = frameWeight fetch (frameLvl m fr) fr.name fr.version + stackWeight fetch m s := by
  simp [stackWeight]

theorem stackWeight_append (fetch : Fetch) (m : Nat) (s1 s2 : List Frame) :
    stackWeight fetch m (s1 ++ s2) = stackWeight fetch m s1 + stackWeight fetch m s2 := by
  simp [stackWeight]

theorem stackWeight_reverse (fetch : Fetch) (m : Nat) (s : List Frame) :
    stackWeight fetch m s.reverse = stackWeight fetch m s := by
  simp [stackWeight, List.sum_reverse]

theorem runStep_cons (fetch : Fetch) (m : Nat) {st : BuildState} {fr : Frame}
    {rest : List Frame} (hs : st.stack = fr :: rest) :
    runStep fetch m st = stepFrame fetch m fr rest st := by
  unfold runStep
  rw [hs]

theorem runLoop_zero (fetch : Fetch) (m : Nat) (st : BuildState) :
    runLoop fetch m 0 st = st :=
  rfl

theorem runLoop_succ_nil {fetch : Fetch} {m fuel : Nat} {st : BuildState}
    (hs : st.stack = []) : runLoop fetch m (fuel + 1) st = st := by
  have h : runLoop fetch m (fuel + 1) st
      = (match st.stack with
         | [] => st
         | _ :: _ => runLoop fetch m fuel (runStep fetch m st)) := rfl
  rw [h, hs]

theorem runLoop_succ_cons {fetch : Fetch} {m fuel : Nat} {st : BuildState} {fr : Frame}
    {rest : List Frame} (hs : st.stack = fr :: rest) :
    runLoop fetch m (fuel + 1) st = runLoop fetch m fuel (runStep fetch m st) := by
  have h : runLoop fetch m (fuel + 1) st
      = (match st.stack with
         | [] => st
         | _ :: _ => runLoop fetch m fuel (runStep fetch m st)) := rfl
  rw [h, hs]

theorem stepFrame_popLog (fetch : Fetch) (m : Nat) (fr : Frame) (rest : List Frame)
    (st : BuildState) :
    (stepFrame fetch m fr rest st).popLog = st.popLog ++ [nodeKey fr.name fr.version] := by
  unfold stepFrame
  by_cases hv : nodeKey fr.name fr.version ∈ st.visited
  · simp [hv]
  · simp only [if_neg hv]
    cases hf : fetch fr.name fr.version with
    | none => simp
    | some deps => by_cases hd : m ≤ fr.depth <;> simp [hd]

theorem stepFrame_weight_lt (fetch : Fetch) (m : Nat) (fr : Frame) (rest : List Frame)
    (st : BuildState) :
    stackWeight fetch m (stepFrame fetch m fr rest st).stack
      < stackWeight fetch m (fr :: rest) := by
  have hpos := frameWeight_pos fetch (frameLvl m fr) fr.name fr.version
  rw [stackWeight_cons]
  unfold stepFrame
  by_cases hv : nodeKey fr.name fr.version ∈ st.visited
  · simp only [if_pos hv]
    omega
  · simp only [if_neg hv]
    cases hf : fetch fr.name fr.version with
    | none => simp only; omega
    | some deps =>
      by_cases hdep : m ≤ fr.depth
      · simp only [if_pos hdep]
        omega
      · simp only [if_neg hdep]
        have hlt : fr.depth < m := Nat.not_le.1 hdep
        rw [stackWeight_append, stackWeight_reverse]
        have hlvl : frameLvl m fr = (m - fr.depth - 1) + 1 + 1 := by
          unfold frameLvl
          omega
        have hw : frameWeight fetch (frameLvl m fr) fr.name fr.version
            = 1 + (deps.map
                (fun d => frameWeight fetch ((m - fr.depth - 1) + 1) d.1 d.2)).sum := by
          rw [hlvl, frameWeight_succ, hf]
        have hpush : stackWeight fetch m
            ((deps.filter (fun d => decide (d.1 ∉ fr.path))).map
              (fun d => Frame.mk d.1 d.2 (fr.depth + 1) (fr.path ++ [d.1])))
            ≤ (deps.map
                (fun d => frameWeight fetch ((m - fr.depth - 1) + 1) d.1 d.2)).sum := by
          unfold stackWeight
          rw [List.map_map]
          have hlvl2 : ∀ d : String × String,
              frameLvl m (Frame.mk d.1 d.2 (fr.depth + 1) (fr.path ++ [d.1]))
                = (m - fr.depth - 1) + 1 := by
            intro d
            unfold frameLvl
            simp only [Frame.depth]
            omega
          have hmap : ((deps.filter (fun d => decide (d.1 ∉ fr.path))).map
              ((fun g => frameWeight fetch (frameLvl m g) g.name g.version) ∘
                (fun d => Frame.mk d.1 d.2 (fr.depth + 1) (fr.path ++ [d.1]))))
              = (deps.filter (fun d => decide (d.1 ∉ fr.path))).map
                  (fun d => frameWeight fetch ((m - fr.depth - 1) + 1) d.1 d.2) := by
            apply List.map_congr_left
            intro d _
            simp only [Function.comp]
            rw [hlvl2 d]
          rw [hmap]
          apply List.Sublist.sum_le_sum
          · exact (List.filter_sublist deps).map _
          · intro a _
            exact Nat.zero_le a
        omega

theorem runLoop_drain (fetch : Fetch) (m : Nat) :
    ∀ fuel (st : BuildState), stackWeight fetch m st.stack ≤ fuel →
      (runLoop fetch m fuel st).stack = [] ∧
        (runLoop fetch m fuel st).popLog.length ≤ st.popLog.length + fuel := by
  intro fuel
  induction fuel with
  | zero =>
    intro st hw
    cases hs : st.stack with
    | nil => simp [runLoop_zero, hs]
    | cons fr rest =>
      exfalso
      rw [hs, stackWeight_cons] at hw
      have := frameWeight_pos fetch (frameLvl m fr) fr.name fr.version
      omega
  | succ fuel ih =>
    intro st hw
    cases hs : st.stack with
    | nil => simp [runLoop_succ_nil hs, hs]
    | cons fr rest =>
      have hstep := runStep_cons fetch m hs
      have hwlt := stepFrame_weight_lt fetch m fr rest st
      have hw2 : stackWeight fetch m (runStep fetch m st).stack ≤ fuel := by
        rw [hstep]
        rw [hs] at hw
        omega
      obtain ⟨h1, h2⟩ := ih (runStep fetch m st) hw2
      have hpop : (runStep fetch m st).popLog.length = st.popLog.length + 1 := by
        rw [hstep, stepFrame_popLog]
        simp
      refine ⟨?_, ?_⟩
      · rw [runLoop_succ_cons hs]
        exact h1
      · rw [runLoop_succ_cons hs]
        omega

theorem runLoop_preserves {fetch : Fetch} {m : Nat} (P : BuildState → Prop)
    (hstep : ∀ st fr rest, st.stack = fr :: rest → P st → P (runStep fetch m st)) :
    ∀ fuel st, P st → P (runLoop fetch m fuel st) := by
  intro fuel
  induction fuel with
  | zero =>
    intro st h
    rw [runLoop_zero]
    exact h
  | succ fuel ih =>
    intro st h
    cases hs : st.stack with
    | nil =>
      rw [runLoop_succ_nil hs]
      exact h
    | cons fr rest =>
      rw [runLoop_succ_cons hs]
      exact ih _ (hstep st fr rest hs h)

theorem stepFrame_warnings_mono (fetch : Fetch) (m : Nat) (fr : Frame) (rest : List Frame)
    (st : BuildState) {w : Warning} (h : w ∈ st.warnings) :
    w ∈ (stepFrame fetch m fr rest st).warnings := by
  unfold stepFrame
  by_cases hv : nodeKey fr.name fr.version ∈ st.visited
  · simpa [hv] using h
  · simp only [if_neg hv]
    cases hf : fetch fr.name fr.version with
    | none => simpa using Or.inl h
    | some deps =>
      by_cases hd : m ≤ fr.depth
      · simpa [hd] using h
      · simp only [if_neg hd]
        exact List.mem_append_left _ h

theorem runLoop_warnings_mono (fetch : Fetch) (m fuel : Nat) (st : BuildState)
    {w : Warning} (h : w ∈ st.warnings) : w ∈ (runLoop fetch m fuel st).warnings := by
  refine runLoop_preserves (fun s => w ∈ s.warnings) ?_ fuel st h
  intro s fr rest hs hw
  rw [runStep_cons fetch m hs]
  exact stepFrame_warnings_mono fetch m fr rest s hw

/-!
Characterisation of the inverted graph via the fold over entries. -/

theorem rdo_fold_deps (pkg : String) (deps : List (String × String))
    (inv : List (String × List String)) (X p : String) :
    p ∈ reverseDependersOf
        (deps.foldl (fun i d => dictAppend i (nodeKey d.1 d.2) pkg) inv) X ↔
      p ∈ reverseDependersOf inv X ∨ (p = pkg ∧ ∃ d ∈ deps, nodeKey d.1 d.2 = X) := by
  induction deps generalizing inv with
  | nil => simp
  | cons d ds ih =>
    rw [List.foldl_cons, ih, rdo_dictAppend]
    by_cases hkX : nodeKey d.1 d.2 = X
    · simp only [if_pos hkX, List.mem_append, List.mem_singleton]
      constructor
      · rintro ((h | rfl) | h)
        · exact Or.inl h
        · exact Or.inr ⟨rfl, d, List.mem_cons_self _ _, hkX⟩
        · exact Or.inr ⟨h.1, h.2.choose, List.mem_cons_of_mem _ h.2.choose_spec.1,
            h.2.choose_spec.2⟩
      · rintro (h | ⟨rfl, e, he, hX⟩)
        · exact Or.inl (Or.inl h)
        · rcases List.mem_cons.1 he with rfl | he2
          · exact Or.inl (Or.inr rfl)
          · exact Or.inr ⟨rfl, e, he2, hX⟩
    · simp only [if_neg hkX, List.append_nil]
      constructor
      · rintro (h | ⟨rfl, e, he, hX⟩)
        · exact Or.inl h
        · exact Or.inr ⟨rfl, e, List.mem_cons_of_mem _ he, hX⟩
      · rintro (h | ⟨rfl, e, he, hX⟩)
        · exact Or.inl h
        · rcases List.mem_cons.1 he with rfl | he2
          · exact absurd hX hkX
          · exact Or.inr ⟨rfl, e, he2, hX⟩

theorem rdo_fold_graph (G : List (String × List (String × String)))
    (inv : List (String × List String)) (X p : String) :
    p ∈ reverseDependersOf
        (G.foldl (fun i pd => pd.2.foldl
          (fun i2 d => dictAppend i2 (nodeKey d.1 d.2) pd.1) i) inv) X ↔
      p ∈ reverseDependersOf inv X ∨
        ∃ pd ∈ G, pd.1 = p ∧ ∃ d ∈ pd.2, nodeKey d.1 d.2 = X := by
  induction G generalizing inv with
  | nil => simp
  | cons pd G ih =>
    rw [List.foldl_cons, ih, rdo_fold_deps]
    constructor
    · rintro ((h | ⟨rfl, e, he, hX⟩) | ⟨qd, hqd, hq1, e, he, hX⟩)
      · exact Or.inl h
      · exact Or.inr ⟨pd, List.mem_cons_self _ _, rfl, e, he, hX⟩
      · exact Or.inr ⟨qd, List.mem_cons_of_mem _ hqd, hq1, e, he, hX⟩
    · rintro (h | ⟨qd, hqd, hq1, e, he, hX⟩)
      · exact Or.inl (Or.inl h)
      · rcases List.mem_cons.1 hqd with rfl | hqd2
        · exact Or.inl (Or.inr ⟨hq1.symm, e, he, hX⟩)
        · exact Or.inr ⟨qd, hqd2, hq1, e, he, hX⟩

/-!
Loop invariants: graph keys versus successful fetches, deduplication of
fetches, and well-formedness of recorded dependency lists. -/

theorem stepFrame_graphKeys (fetch : Fetch) (m : Nat) (fr : Frame) (rest : List Frame)
    (st : BuildState)
    (h : ∀ k, k ∈ st.graph.map Prod.fst ↔
      ∃ p q deps, (p, q, some deps) ∈ st.fetchLog ∧ nodeKey p q = k) :
    ∀ k, k ∈ (stepFrame fetch m fr rest st).graph.map Prod.fst ↔
      ∃ p q deps, (p, q, some deps) ∈ (stepFrame fetch m fr rest st).fetchLog ∧
        nodeKey p q = k := by
  unfold stepFrame
  by_cases hv : nodeKey fr.name fr.version ∈ st.visited
  · simpa [hv] using h
  · simp only [if_neg hv]
    cases hf : fetch fr.name fr.version with
    | none =>
      intro k
      simp only
      constructor
      · intro hk
        rcases (h k).1 hk with ⟨p, q, deps, hm, hkey⟩
        exact ⟨p, q, deps, List.mem_append_left _ hm, hkey⟩
      · rintro ⟨p, q, deps, hm, hkey⟩
        rcases List.mem_append.1 hm with hm2 | hm2
        · exact (h k).2 ⟨p, q, deps, hm2, hkey⟩
        · simp at hm2
      | some deps0 =>
      have main : ∀ k,
          k ∈ (dictSet st.graph (nodeKey fr.name fr.version) deps0).map Prod.fst ↔
          ∃ p q deps, (p, q, some deps) ∈
              st.fetchLog ++ [(fr.name, fr.version, some deps0)] ∧ nodeKey p q = k := by
        intro k
        rw [dictSet_keys]
        constructor
        · rintro (hk | rfl)
          · rcases (h k).1 hk with ⟨p, q, deps, hm, hkey⟩
            exact ⟨p, q, deps, List.mem_append_left _ hm, hkey⟩
          · exact ⟨fr.name, fr.version, deps0,
              List.mem_append_right _ (List.mem_singleton.2 rfl), rfl⟩
        · rintro ⟨p, q, deps, hm, hkey⟩
          rcases List.mem_append.1 hm with hm2 | hm2
          · exact Or.inl ((h k).2 ⟨p, q, deps, hm2, hkey⟩)
          · rcases List.mem_singleton.1 hm2 with he
            obtain ⟨rfl, rfl, -⟩ : p = fr.name ∧ q = fr.version ∧ some deps = some deps0 := by
              simpa using he
            exact Or.inr hkey.symm
      by_cases hd : m ≤ fr.depth
      · simpa [hd] using main
      · simpa [hd] using main

theorem stepFrame_dedup (fetch : Fetch) (m : Nat) (fr : Frame) (rest : List Frame)
    (st : BuildState)
    (h1 : st.visited.Nodup)
    (h2 : ∀ k, k ∈ st.visited ↔ k ∈ st.popLog)
    (h3 : ∀ e ∈ st.fetchLog, nodeKey e.1 e.2.1 ∈ st.visited)
    (h4 : (st.fetchLog.map (fun e => nodeKey e.1 e.2.1)).Nodup) :
    (stepFrame fetch m fr rest st).visited.Nodup ∧
    (∀ k, k ∈ (stepFrame fetch m fr rest st).visited ↔
        k ∈ (stepFrame fetch m fr rest st).popLog) ∧
    (∀ e ∈ (stepFrame fetch m fr rest st).fetchLog,
        nodeKey e.1 e.2.1 ∈ (stepFrame fetch m fr rest st).visited) ∧
    ((stepFrame fetch m fr rest st).fetchLog.map
        (fun e => nodeKey e.1 e.2.1)).Nodup := by
  unfold stepFrame
  by_cases hv : nodeKey fr.name fr.version ∈ st.visited
  · refine ⟨by simpa [hv] using h1, ?_, by simpa [hv] using h3, by simpa [hv] using h4⟩
    intro k
    simp only [if_pos hv]
    rw [h2 k]
    constructor
    · intro hk
      exact List.mem_append_left _ hk
    · intro hk
      rcases List.mem_append.1 hk with hk2 | hk2
      · exact hk2
      · rw [List.mem_singleton.1 hk2, ← h2]
        exact hv
  · have hkey : nodeKey fr.name fr.version ∉ st.fetchLog.map (fun e => nodeKey e.1 e.2.1) := by
      intro hmem
      rcases List.mem_map.1 hmem with ⟨e, he, hek⟩
      exact hv (hek ▸ h3 e he)
    have main : ∀ entry : String × String × Option (List (String × String)),
        entry.1 = fr.name → entry.2.1 = fr.version →
        (nodeKey fr.name fr.version :: st.visited).Nodup ∧
        (∀ k, k ∈ nodeKey fr.name fr.version :: st.visited ↔
            k ∈ st.popLog ++ [nodeKey fr.name fr.version]) ∧
        (∀ e ∈ st.fetchLog ++ [entry],
            nodeKey e.1 e.2.1 ∈ nodeKey fr.name fr.version :: st.visited) ∧
        ((st.fetchLog ++ [entry]).map (fun e => nodeKey e.1 e.2.1)).Nodup := by
      intro entry he1 he2
      refine ⟨List.nodup_cons.2 ⟨hv, h1⟩, ?_, ?_, ?_⟩
      · intro k
        simp only [List.mem_cons, List.mem_append, List.mem_singleton]
        rw [h2 k]
        tauto
      · intro e he
        rcases List.mem_append.1 he with he3 | he3
        · exact List.mem_cons_of_mem _ (h3 e he3)
        · rw [List.mem_singleton.1 he3, he1, he2]
          exact List.mem_cons_self _ _
      · rw [List.map_append]
        simp only [List.map_cons, List.map_nil]
        rw [he1, he2]
        simp only [List.nodup_append, List.nodup_cons, List.nodup_nil]
        refine ⟨h4, ⟨by simp, trivial⟩, ?_⟩
        intro a ha
        simp only [List.mem_singleton]
        intro hae
        rw [hae] at ha
        exact hkey ha
    simp only [if_neg hv]
    cases hf : fetch fr.name fr.version with
    | none => exact main (fr.name, fr.version, none) rfl rfl
    | some deps0 =>
      by_cases hd : m ≤ fr.depth
      · simpa [hd] using main (fr.name, fr.version, some deps0) rfl rfl
      · simpa [hd] using main (fr.name, fr.version, some deps0) rfl rfl

theorem stepFrame_depNodup (fetch : Fetch) (m : Nat) (fr : Frame) (rest : List Frame)
    (st : BuildState)
    (H : ∀ n v deps, fetch n v = some deps → (deps.map Prod.fst).Nodup)
    (h : ∀ p ∈ st.graph, (Prod.snd p |>.map Prod.fst).Nodup) :
    ∀ p ∈ (stepFrame fetch m fr rest st).graph, (Prod.snd p |>.map Prod.fst).Nodup := by
  unfold stepFrame
  by_cases hv : nodeKey fr.name fr.version ∈ st.visited
  · simpa [hv] using h
  · simp only [if_neg hv]
    cases hf : fetch fr.name fr.version with
    | none => simpa using h
    | some deps0 =>
      have main : ∀ p ∈ dictSet st.graph (nodeKey fr.name fr.version) deps0,
          (Prod.snd p |>.map Prod.fst).Nodup := by
        intro p hp
        rcases dictSet_mem hp with hp2 | rfl
        · exact h p hp2
        · exact H fr.name fr.version deps0 hf
      by_cases hd : m ≤ fr.depth
      · simpa [hd] using main
      · simpa [hd] using main

theorem stepFrame_cycle_warning (fetch : Fetch) (m : Nat) (fr : Frame)
    (rest : List Frame) (st : BuildState) (deps : List (String × String))
    (dn dv : String)
    (hv : nodeKey fr.name fr.version ∉ st.visited)
    (hf : fetch fr.name fr.version = some deps)
    (hd : ¬ m ≤ fr.depth)
    (hdep : (dn, dv) ∈ deps) (hcyc : dn ∈ fr.path) :
    Warning.cycle (fr.path ++ [dn]) ∈ (stepFrame fetch m fr rest st).warnings := by
  unfold stepFrame
  rw [if_neg hv]
  simp only [hf]
  rw [if_neg hd]
  apply List.mem_append_right
  apply List.mem_map.2
  refine ⟨(dn, dv), List.mem_filter.2 ⟨hdep, ?_⟩, rfl⟩
  simpa using hcyc

/-!
The claims. -/

/-- C3: for every metadata source (any mapping from a name and version
to a dependency list or a fetch failure) and every max_depth, the
traversal loop of build_dependency_graph terminates: run with the
computed fuel it drains the stack completely, and pops at most that
finite number of frames. -/
theorem build_traversal_terminates (fetch : Fetch) (name version : String) (maxDepth : Nat) :
    (buildFull fetch name version maxDepth).stack = [] ∧
    (buildFull fetch name version maxDepth).popLog.length
      ≤ totalFuel fetch name version maxDepth := by
  have h := runLoop_drain fetch maxDepth (totalFuel fetch name version maxDepth)
      (initState name version) le_rfl
  refine ⟨h.1, ?_⟩
  have h2 := h.2
  simpa [initState] using h2

/-- C1: a canonical key is present in the graph returned by
build_dependency_graph if and only if the fetch for a node identity with
that canonical key succeeded during traversal; a node whose fetch failed
leaves no entry. -/
theorem graph_key_iff_fetch_success (fetch : Fetch) (name version : String)
    (maxDepth : Nat) (k : String) :
    k ∈ (build_dependency_graph fetch name version maxDepth).map Prod.fst ↔
      ∃ p q deps, (p, q, some deps) ∈ (buildFull fetch name version maxDepth).fetchLog ∧
        nodeKey p q = k := by
  have h := runLoop_preserves
    (fun st => ∀ k, k ∈ st.graph.map Prod.fst ↔
      ∃ p q deps, (p, q, some deps) ∈ st.fetchLog ∧ nodeKey p q = k)
    (fun st fr rest hs hP => by
      rw [runStep_cons fetch maxDepth hs]
      exact stepFrame_graphKeys fetch maxDepth fr rest st hP)
    (totalFuel fetch name version maxDepth) (initState name version)
    (by intro k; simp [initState])
  exact h k

/-- C4: no node identity is fetched more than once during one build: the
canonical keys of the logged fetch calls are pairwise distinct, and the
visited set's size after build equals the number of distinct canonical
keys popped from the stack. -/
theorem fetch_once_and_visited_count (fetch : Fetch) (name version : String)
    (maxDepth : Nat) :
    ((buildFull fetch name version maxDepth).fetchLog.map
        (fun e => nodeKey e.1 e.2.1)).Nodup ∧
    (buildFull fetch name version maxDepth).visited.length
      = (buildFull fetch name version maxDepth).popLog.dedup.length := by
  have h := runLoop_preserves
    (fun st => st.visited.Nodup ∧
      (∀ k, k ∈ st.visited ↔ k ∈ st.popLog) ∧
      (∀ e ∈ st.fetchLog, nodeKey e.1 e.2.1 ∈ st.visited) ∧
      (st.fetchLog.map (fun e => nodeKey e.1 e.2.1)).Nodup)
    (fun st fr rest hs hP => by
      rw [runStep_cons fetch maxDepth hs]
      exact stepFrame_dedup fetch maxDepth fr rest st hP.1 hP.2.1 hP.2.2.1 hP.2.2.2)
    (totalFuel fetch name version maxDepth) (initState name version)
    (by refine ⟨List.nodup_nil, ?_, ?_, List.nodup_nil⟩ <;> simp [initState])
  refine ⟨h.2.2.2, ?_⟩
  have hperm : (buildFull fetch name version maxDepth).visited.Perm
      (buildFull fetch name version maxDepth).popLog.dedup := by
    unfold buildFull
    rw [List.perm_ext_iff_of_nodup h.1 (List.nodup_dedup _)]
    intro a
    rw [List.mem_dedup]
    exact h.2.1 a
  exact hperm.length_eq

/-- C10: every dependency list recorded in the returned graph has
pairwise distinct dependency names, provided every successful fetch
reports pairwise distinct dependency names (forced in the program
because the list is built from the items of a JSON-object mapping of
name to version). -/
theorem dep_names_nodup (fetch : Fetch) (name version : String) (maxDepth : Nat)
    (H : ∀ n v deps, fetch n v = some deps → (deps.map Prod.fst).Nodup) :
    depNamesNodup (build_dependency_graph fetch name version maxDepth) := by
  have h := runLoop_preserves
    (fun st => ∀ p ∈ st.graph, (Prod.snd p |>.map Prod.fst).Nodup)
    (fun st fr rest hs hP => by
      rw [runStep_cons fetch maxDepth hs]
      exact stepFrame_depNodup fetch maxDepth fr rest st H hP)
    (totalFuel fetch name version maxDepth) (initState name version)
    (by intro p hp; simp [initState] at hp)
  exact h

/-- C10 witness: the hypothesis holds for the scenario 1 snapshot source
and the conclusion follows at the concrete build. -/
theorem dep_names_nodup_witness :
    depNamesNodup (build_dependency_graph sampleFetch "A" "1.0" 2) := by
  apply dep_names_nodup
  intro n v deps h
  have hm := alookup_mem (show alookup sampleSnapshot (nodeKey n v) = some deps by
    simpa [sampleFetch, fetch_package_local] using h)
  simp only [sampleSnapshot, List.mem_cons, List.not_mem_nil, or_false,
    Prod.mk.injEq] at hm
  rcases hm with ⟨-, rfl⟩ | ⟨-, rfl⟩ | ⟨-, rfl⟩ | ⟨-, rfl⟩ <;> decide

/-- C2: a package p appears among the reverse dependers of a target key
X computed from invert_graph if and only if the graph has an entry for p
whose dependency list contains a spec with canonical key X; a target key
absent from the inverted index yields the empty depender list rather
than an error. -/
theorem invert_graph_depender_iff (G : List (String × List (String × String)))
    (X p : String) :
    (p ∈ reverseDependersOf (invert_graph G) X ↔
      ∃ deps, (p, deps) ∈ G ∧ ∃ d ∈ deps, nodeKey d.1 d.2 = X) ∧
    (alookup (invert_graph G) X = none →
      reverseDependersOf (invert_graph G) X = []) := by
  constructor
  · unfold invert_graph
    rw [rdo_fold_graph]
    constructor
    · rintro (h | ⟨pd, hpd, hp1, e, he, hX⟩)
      · simp [reverseDependersOf, alookup] at h
      · obtain ⟨a, b⟩ := pd
        cases hp1
        exact ⟨b, hpd, e, he, hX⟩
    · rintro ⟨deps, hmem, e, he, hX⟩
      exact Or.inr ⟨(p, deps), hmem, rfl, e, he, hX⟩
  · intro h
    unfold reverseDependersOf
    rw [h]

/-- C2 witness: the characterisation instantiated at the scenario 1
snapshot viewed as a graph, target B at 1.0 and candidate depender A at
1.0. -/
theorem invert_graph_depender_iff_witness :
    (("A@1.0" : String) ∈ reverseDependersOf (invert_graph sampleSnapshot) "B@1.0" ↔
      ∃ deps, ("A@1.0", deps) ∈ sampleSnapshot ∧
        ∃ d ∈ deps, nodeKey d.1 d.2 = "B@1.0") ∧
    (alookup (invert_graph sampleSnapshot) "B@1.0" = none →
      reverseDependersOf (invert_graph sampleSnapshot) "B@1.0" = []) :=
  invert_graph_depender_iff sampleSnapshot "B@1.0" "A@1.0"

/-- C9: on the scenario 1 snapshot with start A at 1.0 and max_depth 2,
the returned graph has exactly the four expected entries (D is fetched
and its edge to A recorded but not expanded) and no warning at all, in
particular no cycle warning, is emitted. -/
theorem sample_snapshot_build :
    (buildFull sampleFetch "A" "1.0" 2).graph
      = [("A@1.0", [("B", "1.0"), ("C", "1.0")]), ("C@1.0", []),
         ("B@1.0", [("D", "1.0")]), ("D@1.0", [("A", "1.0")])] ∧
    (buildFull sampleFetch "A" "1.0" 2).warnings = [] := by
  exact ⟨rfl, rfl⟩

/-- C5: a node popped at depth at least max_depth whose fetch succeeds
still gets its own graph entry recorded with its direct dependency
specs, but nothing is pushed for expansion and no warning is emitted at
this step. -/
theorem depth_limit_records_without_expansion (fetch : Fetch) (maxDepth : Nat)
    (st : BuildState) (fr : Frame) (rest : List Frame)
    (deps : List (String × String))
    (hs : st.stack = fr :: rest)
    (hv : nodeKey fr.name fr.version ∉ st.visited)
    (hf : fetch fr.name fr.version = some deps)
    (hd : maxDepth ≤ fr.depth) :
    (runStep fetch maxDepth st).graph
        = dictSet st.graph (nodeKey fr.name fr.version) deps ∧
    (runStep fetch maxDepth st).stack = rest ∧
    (runStep fetch maxDepth st).warnings = st.warnings := by
  rw [runStep_cons fetch maxDepth hs]
  unfold stepFrame
  rw [if_neg hv]
  simp only [hf]
  rw [if_pos hd]
  exact ⟨rfl, rfl, rfl⟩

/-- C5 witness: package D of scenario 1 popped at depth 2 with
max_depth 2 gets its entry recorded and nothing pushed. -/
theorem depth_limit_witness :
    probeState.stack = Frame.mk "D" "1.0" 2 ["A", "B", "D"] :: [] ∧
    nodeKey "D" "1.0" ∉ probeState.visited ∧
    sampleFetch "D" "1.0" = some [("A", "1.0")] ∧
    2 ≤ (Frame.mk "D" "1.0" 2 ["A", "B", "D"]).depth ∧
    ((runStep sampleFetch 2 probeState).graph
        = dictSet probeState.graph (nodeKey "D" "1.0") [("A", "1.0")] ∧
      (runStep sampleFetch 2 probeState).stack = [] ∧
      (runStep sampleFetch 2 probeState).warnings = probeState.warnings) :=
  ⟨rfl, by decide, by decide, by decide,
    depth_limit_records_without_expansion sampleFetch 2 probeState _ []
      [("A", "1.0")] rfl (by decide) (by decide) (by decide)⟩

/-- C6 counterexample: in local mode with a missing or unparsable
snapshot file the build does not fail before traversal: the loop runs to
completion, catches the per-fetch RuntimeError, emits one skip warning
for the start node and returns an empty graph. -/
theorem local_missing_snapshot_cex :
    (buildFull (fetch_package_local none) "A" "1.0" 3).graph = [] ∧
    (buildFull (fetch_package_local none) "A" "1.0" 3).warnings
        = [Warning.skip "A@1.0"] ∧
    (buildFull (fetch_package_local none) "A" "1.0" 3).stack = [] := by
  exact ⟨rfl, rfl, rfl⟩

/-- C6 amended: in local mode a missing or unparsable snapshot does not
abort the build; every fetch fails, so for any start package the build
returns normally with an empty graph and a single skip warning for the
start node. -/
theorem local_missing_snapshot_amended (name version : String) (maxDepth : Nat) :
    (buildFull (fetch_package_local none) name version maxDepth).graph = [] ∧
    (buildFull (fetch_package_local none) name version maxDepth).warnings
        = [Warning.skip (nodeKey name version)] ∧
    (buildFull (fetch_package_local none) name version maxDepth).stack = [] := by
  have hfuel : totalFuel (fetch_package_local none) name version maxDepth = 1 := by
    unfold totalFuel initState stackWeight frameLvl
    simp [frameWeight_succ, fetch_package_local]
  unfold buildFull
  rw [hfuel]
  have h1 : (initState name version).stack = Frame.mk name version 0 [name] :: [] := rfl
  rw [show (1 : Nat) = 0 + 1 from rfl, runLoop_succ_cons h1, runLoop_zero,
    runStep_cons (fetch_package_local none) maxDepth h1]
  unfold stepFrame
  have hvis : nodeKey (Frame.mk name version 0 [name]).name
      (Frame.mk name version 0 [name]).version ∉ (initState name version).visited := by
    simp [initState]
  rw [if_neg hvis]
  simp [initState, fetch_package_local]

/-- C7 counterexample: in remote mode a response whose body is valid
JSON but a JSON array makes get_dependencies raise an AttributeError
that escapes build_dependency_graph: the whole build aborts instead of
skipping the node and returning the remaining graph. -/
theorem remote_array_body_cex :
    build_dependency_graph_remote (fun _ _ => Except.ok (Json.arr [])) "A" "1.0" 0 1
      = Except.error PyExn.attributeError :=
  rfl

/-- C7 amended: a valid-JSON response that is not an object is not
treated as a FetchError: for every start package and depth, a source
that always returns a JSON array makes the whole build abort with an
uncaught AttributeError and no graph is returned; only RuntimeError
(transport, HTTP, JSON-decode) failures are skipped per node. -/
theorem remote_array_body_amended (fuel maxDepth : Nat) (name version : String) :
    build_dependency_graph_remote (fun _ _ => Except.ok (Json.arr [])) name version
        maxDepth (fuel + 1) = Except.error PyExn.attributeError := by
  simp [build_dependency_graph_remote, initStateR, runLoopR, runStepR,
    get_dependencies]

/-- C8 counterexample: the initial work stack frame carries the start
package's name in its ancestor path, so a self-dependency of the start
package is cycle-suppressed: one cycle warning is emitted and the
declared dependency of A on itself at version 2.0 is never popped. -/
theorem start_self_cycle_cex :
    (initState "A" "1.0").stack = [Frame.mk "A" "1.0" 0 ["A"]] ∧
    (buildFull selfDepFetch "A" "1.0" 1).warnings = [Warning.cycle ["A", "A"]] ∧
    (buildFull selfDepFetch "A" "1.0" 1).popLog = ["A@1.0"] := by
  exact ⟨rfl, rfl, rfl⟩

/-- C8 amended: build initializes the work stack with exactly one frame
for the start package at depth 0 whose ancestor path already contains
the start package's name; consequently, when the start package declares
a dependency whose name equals its own name and the depth bound allows
expansion, that dependency is cycle-suppressed and a cycle warning
naming the start package twice is emitted. -/
theorem start_path_self_cycle (fetch : Fetch) (n v : String) (maxDepth : Nat)
    (deps : List (String × String)) (dv : String)
    (hf : fetch n v = some deps) (hdep : (n, dv) ∈ deps) (hd : 0 < maxDepth) :
    (initState n v).stack = [Frame.mk n v 0 [n]] ∧
    Warning.cycle [n, n] ∈ (buildFull fetch n v maxDepth).warnings := by
  refine ⟨rfl, ?_⟩
  obtain ⟨f2, hf2⟩ : ∃ f2, totalFuel fetch n v maxDepth = f2 + 1 := by
    have hpos : 1 ≤ stackWeight fetch maxDepth (initState n v).stack := by
      rw [show (initState n v).stack = Frame.mk n v 0 [n] :: [] from rfl,
        stackWeight_cons, stackWeight_nil]
      have := frameWeight_pos fetch (frameLvl maxDepth (Frame.mk n v 0 [n]))
        (Frame.mk n v 0 [n]).name (Frame.mk n v 0 [n]).version
      omega
    exact ⟨totalFuel fetch n v maxDepth - 1, by unfold totalFuel; omega⟩
  unfold buildFull
  rw [hf2]
  have h1 : (initState n v).stack = Frame.mk n v 0 [n] :: [] := rfl
  rw [runLoop_succ_cons h1]
  apply runLoop_warnings_mono
  rw [runStep_cons fetch maxDepth h1]
  have h2 := stepFrame_cycle_warning fetch maxDepth (Frame.mk n v 0 [n]) []
    (initState n v) deps n dv (by simp [initState]) hf (by simp; omega) hdep
    (by simp)
  simpa using h2

/-- C8 witness: the self-dependent source exhibits the suppressed
self-edge with its cycle warning. -/
theorem start_path_self_cycle_witness :
    selfDepFetch "A" "1.0" = some [("A", "2.0")] ∧
    ("A", "2.0") ∈ [("A", "2.0")] ∧
    0 < 1 ∧
    ((initState "A" "1.0").stack = [Frame.mk "A" "1.0" 0 ["A"]] ∧
      Warning.cycle ["A", "A"] ∈ (buildFull selfDepFetch "A" "1.0" 1).warnings) :=
  ⟨by decide, by decide, by decide,
    start_path_self_cycle selfDepFetch "A" "1.0" 1 [("A", "2.0")] "2.0"
      (by decide) (by decide) (by decide)⟩

end DepViz
